import Mathlib

/-!
Verification of the import-resolution and dependency-classification engine of
`modulefinder_revamped` (a static module-dependency tracker for Python-style
module imports).  The definitions below are a shallow embedding of the source:

* `modulefinder_revamped.py` — `_replace_paths_in_code`, `_scan_code`,
  `ModuleFinder.any_missing_maybe`, the state carried by `ModuleFinder`
  (`modules`, `bad_modules`, `excludes`) and by `MFModuleType`
  (`__code__`, `__mf_global_names__`, `__mf_star_imports__`).
* the name-resolution semantics invoked at `_scan_code` lines 110-113
  (`_calc___package__` composed with `importlib.util.resolve_name`).

Python `set` objects are embedded as duplicate-free-by-insertion lists
(`sInsert` / `sUnion`); `dict` objects as association lists in insertion
order; collaborator calls (`importlib.__import__`, `sys.modules.get`,
`os.path.normpath`) as explicit oracle parameters.
-/

namespace MFind

/-! ## Basic set / association-list embedding of Python `set` and `dict` -/

/-- Python `set.add`: membership-preserving insertion into a list-backed set. -/
def sInsert (x : String) (s : List String) : List String :=
  if x ∈ s then s else s ++ [x]

/-- Python `set |= other`: fold `sInsert` of the right set into the left. -/
def sUnion (a b : List String) : List String :=
  b.foldl (fun acc x => sInsert x acc) a

/-- Association-list lookup, embedding `dict.get` / `dict[...]`. -/
def lookupKey {α : Type} : List (String × α) → String → Option α
  | [], _ => none
  | (k, v) :: rest, key => if k = key then some v else lookupKey rest key

/-- `mf.bad_modules.setdefault(key, set()).add(imp)`: find the entry for
`key` (appending a fresh one if absent) and insert `imp` into its set. -/
def addBad : List (String × List String) → String → String → List (String × List String)
  | [], key, imp => [(key, [imp])]
  | (k, s) :: rest, key, imp =>
    if k = key then (k, sInsert imp s) :: rest
    else (k, s) :: addBad rest key imp

theorem mem_sInsert {x y : String} {s : List String} :
    x ∈ sInsert y s ↔ x = y ∨ x ∈ s := by
  unfold sInsert
  split
  · constructor
    · exact .inr
    · rintro (rfl | h) <;> assumption
  · simp [or_comm]

theorem mem_sUnion {x : String} {a b : List String} :
    x ∈ sUnion a b ↔ x ∈ a ∨ x ∈ b := by
  induction b generalizing a with
  | nil => simp [sUnion]
  | cons y ys ih =>
    show x ∈ sUnion (sInsert y a) ys ↔ _
    rw [ih, mem_sInsert]
    simp only [List.mem_cons]
    tauto

theorem lookupKey_addBad_self (bm : List (String × List String)) (key imp : String) :
    lookupKey (addBad bm key imp) key =
      some (sInsert imp ((lookupKey bm key).getD [])) := by
  induction bm with
  | nil => simp [addBad, lookupKey, sInsert]
  | cons e rest ih =>
    obtain ⟨k, s⟩ := e
    by_cases hk : k = key
    · subst hk
      simp [addBad, lookupKey]
    · simp [addBad, lookupKey, hk, ih]

/-! ## Code objects and opcode facts

`PyCode` embeds `types.CodeType` restricted to the fields the engine reads:
`co_filename`, the opcode facts `_scan_opcodes` extracts, and the
`types.CodeType` entries of `co_consts` (the only constants either
`_replace_paths_in_code` or `_scan_code` acts on). -/

/-- An element of the `_scan_opcodes` stream: a `("store", (name,))` fact or an
`("import", (name, fromlist, level))` fact. -/
inductive OpInfo : Type where
  | store (nm : String)
  | imp (nm : String) (fromlist : Option (List String)) (level : Nat)
deriving DecidableEq, Repr

/-- A code object: recorded source location, opcode facts, nested code consts. -/
inductive PyCode : Type where
  | mk (filename : String) (ops : List OpInfo) (consts : List PyCode)

def PyCode.filename : PyCode → String
  | .mk f _ _ => f

def PyCode.ops : PyCode → List OpInfo
  | .mk _ o _ => o

def PyCode.consts : PyCode → List PyCode
  | .mk _ _ c => c

/-- An `MFModuleType` record: `__name__`, presence of `__path__` (package-ness),
`hasattr`-visible attributes, `__code__`, `__mf_global_names__`,
`__mf_star_imports__`. -/
structure MFMod : Type where
  name : String
  isPkg : Bool
  attrs : List String
  code : Option PyCode
  globalNames : List String
  starImports : List String

/-! ## String helpers on dotted names

`str.split('.')`, `'.'.join`, `'.' in s` and `str.rpartition('.')` are embedded
at the character-list level so that every definition reduces structurally. -/

/-- `s.split('.')` on the character list: always returns at least one chunk. -/
def splitDotChars : List Char → List (List Char)
  | [] => [[]]
  | c :: rest =>
    if c = '.' then [] :: splitDotChars rest
    else
      match splitDotChars rest with
      | [] => [[c]]
      | h :: t => (c :: h) :: t

/-- `s.split('.')`. -/
def splitDots (s : String) : List String :=
  (splitDotChars s.data).map (fun l => String.mk l)

/-- `'.'.join(parts)`. -/
def joinDots : List String → String
  | [] => ""
  | [x] => x
  | x :: rest => x ++ "." ++ joinDots rest

/-- `'.' in s`. -/
def hasDot (s : String) : Bool :=
  s.data.contains '.'

/-- `s.rpartition('.')` restricted to the pair the source uses:
`(part before the last dot, part after the last dot)`; the first component is
`""` when `s` has no dot. -/
def rpartitionDot (s : String) : String × String :=
  (joinDots (splitDots s).dropLast, ((splitDots s).getLast?).getD "")

theorem splitDotChars_ne_nil (l : List Char) : splitDotChars l ≠ [] := by
  cases l with
  | nil => simp [splitDotChars]
  | cons c rest =>
    unfold splitDotChars
    split
    · simp
    · split <;> simp

theorem splitDots_ne_nil (s : String) : splitDots s ≠ [] := by
  unfold splitDots
  intro h
  exact splitDotChars_ne_nil s.data (List.map_eq_nil_iff.mp h)

/-! ## Name resolution (`_scan_code` lines 110-113)

The source computes `_calc___package__(module.__dict__)` — which, for modules
initialized by the import machinery, is the module's own name when it is a
package and the name up to the last dot otherwise — and then
`importlib.util.resolve_name("." * level + name, package)`.  `resolveName`
embeds the semantics of that stdlib call chain (CPython's
`importlib._bootstrap._resolve_name`): split the package anchor by
`rsplit('.', level - 1)`, fail when fewer than `level` pieces result (or the
anchor is empty), and join the head piece with the raw target. -/

/-- `s.rsplit('.', maxsplit)`. -/
def pyRsplitDot (s : String) (maxsplit : Nat) : List String :=
  if (splitDots s).length - 1 ≤ maxsplit then splitDots s
  else
    joinDots ((splitDots s).take ((splitDots s).length - maxsplit)) ::
      (splitDots s).drop ((splitDots s).length - maxsplit)

/-- `_calc___package__` for a module record built by the import machinery:
`spec.parent`, i.e. the module's own name for a package, else the name with
its last component removed (empty when there is no dot). -/
def calcPackage (modName : String) (isPkg : Bool) : String :=
  if isPkg then modName else (rpartitionDot modName).1

/-- `importlib.util.resolve_name` applied to the level-dotted target and the
package anchor, for `level > 0`: `none` embeds the two `ImportError` raises
(no known parent package, and relative import beyond the top-level package). -/
def resolveName (target : String) (level : Nat) (package : String) : Option String :=
  if package = "" then none
  else if (pyRsplitDot package (level - 1)).length < level then none
  else some
    (if target = "" then (pyRsplitDot package (level - 1)).headD ""
     else (pyRsplitDot package (level - 1)).headD "" ++ "." ++ target)

/-! Claim-side formulation of the relative-name rule (spec §4.2): the anchor
with `level - 1` trailing dotted components stripped, joined to the raw
target; failure exactly when `level` exceeds the number of dotted components
the anchor provides. -/

/-- Number of dotted components available in an anchor (`0` for the empty
anchor). Stated from the spec's wording for comparison with `resolveName`. -/
def dottedComponents (s : String) : Nat :=
  if s = "" then 0 else (splitDots s).length

/-- The anchor with its last `k` dotted components stripped. Stated from the
spec's wording for comparison with `resolveName`. -/
def stripTrailingComponents (k : Nat) (s : String) : String :=
  joinDots ((splitDots s).take ((splitDots s).length - k))

/-- Joining a stripped anchor with a (possibly empty) raw target using `"."`.
Stated from the spec's wording for comparison with `resolveName`. -/
def joinRel (anchor target : String) : String :=
  if target = "" then anchor else anchor ++ "." ++ target

theorem pyRsplitDot_length (s : String) (maxsplit : Nat) :
    (pyRsplitDot s maxsplit).length = min ((splitDots s).length) (maxsplit + 1) := by
  have hn : 0 < (splitDots s).length := List.length_pos.mpr (splitDots_ne_nil s)
  unfold pyRsplitDot
  split
  · omega
  · simp only [List.length_cons, List.length_drop]
    omega

theorem pyRsplitDot_head (s : String) (maxsplit : Nat)
    (h : maxsplit < (splitDots s).length) :
    (pyRsplitDot s maxsplit).headD "" =
      joinDots ((splitDots s).take ((splitDots s).length - maxsplit)) := by
  unfold pyRsplitDot
  split
  · rename_i hle
    have h1 : (splitDots s).length - maxsplit = 1 := by omega
    rw [h1]
    obtain ⟨hd, tl, he⟩ : ∃ hd tl, splitDots s = hd :: tl := by
      cases hs : splitDots s with
      | nil => exact absurd hs (splitDots_ne_nil s)
      | cons a b => exact ⟨a, b, rfl⟩
    rw [he]
    rfl
  · rfl

theorem resolveName_eq_none_iff (target package : String) (level : Nat) (hl : 0 < level) :
    resolveName target level package = none ↔ dottedComponents package < level := by
  unfold resolveName dottedComponents
  by_cases hp : package = ""
  · simp [hp, hl]
  · have hn : 0 < (splitDots package).length := List.length_pos.mpr (splitDots_ne_nil package)
    simp only [hp, if_false]
    rw [pyRsplitDot_length]
    split
    · rename_i hlt
      simp only [true_iff]
      omega
    · rename_i hge
      simp only [Option.some_ne_none, false_iff, not_lt]
      omega

theorem resolveName_eq_some (target package r : String) (level : Nat) (hl : 0 < level)
    (h : resolveName target level package = some r) :
    r = joinRel (stripTrailingComponents (level - 1) package) target := by
  unfold resolveName at h
  by_cases hp : package = ""
  · simp [hp] at h
  · simp only [hp, if_false] at h
    split at h
    · exact absurd h (by simp)
    · rename_i hge
      have hn : 0 < (splitDots package).length := List.length_pos.mpr (splitDots_ne_nil package)
      rw [pyRsplitDot_length] at hge
      have hlt : level - 1 < (splitDots package).length := by omega
      rw [pyRsplitDot_head package (level - 1) hlt] at h
      injection h with h
      subst h
      unfold joinRel stripTrailingComponents
      rfl

/-- C4: for an import directive with `level > 0` from module `M`, the resolved
absolute name is `M`'s anchor (its own qualified name when `M` is a package,
else its parent package name) with `level - 1` trailing dotted components
stripped, joined to the raw target with `"."`; and resolution fails with the
relative-import-too-deep error exactly when `level` exceeds the number of
dotted components available in the anchor. -/
theorem c4_relative_import_resolution (target mName : String) (isPkg : Bool)
    (level : Nat) (hl : 0 < level) :
    (resolveName target level (calcPackage mName isPkg) = none ↔
      dottedComponents (calcPackage mName isPkg) < level) ∧
    (∀ r, resolveName target level (calcPackage mName isPkg) = some r →
      r = joinRel (stripTrailingComponents (level - 1) (calcPackage mName isPkg)) target) := by
  exact ⟨resolveName_eq_none_iff target (calcPackage mName isPkg) level hl,
    fun r h => resolveName_eq_some target (calcPackage mName isPkg) r level hl h⟩

/-- Witness for C4 at `target = "x"`, `M = "a.b.c"` (plain module), `level = 2`. -/
theorem c4_relative_import_resolution_witness :
    0 < 2 ∧
    ((resolveName "x" 2 (calcPackage "a.b.c" false) = none ↔
      dottedComponents (calcPackage "a.b.c" false) < 2) ∧
    (∀ r, resolveName "x" 2 (calcPackage "a.b.c" false) = some r →
      r = joinRel (stripTrailingComponents 1 (calcPackage "a.b.c" false)) "x")) :=
  ⟨by decide, c4_relative_import_resolution "x" "a.b.c" false 2 (by decide)⟩

/-! ## `_replace_paths_in_code`

String prefix test, length and drop are embedded at the character-list level
(Python `str` indexing is code-point based).  `os.path.normpath` is an
external collaborator and is passed as an explicit oracle `norm`. -/

/-- `p` is a prefix of `s` (`s.startswith(p)`). -/
def strPrefixOf (p s : String) : Bool :=
  p.data.isPrefixOf s.data

/-- `s[n:]` (drop the first `n` code points). -/
def strDropChars (s : String) (n : Nat) : String :=
  String.mk (s.data.drop n)

/-- `len(s)` in code points. -/
def strLen (s : String) : Nat :=
  s.data.length

/-- The `for ... else` loop of `_replace_paths_in_code`: the first
`(old_path, new_path)` rule with `original_filename.startswith(old_path)`
applies `original_filename.replace(old_path, new_path, 1)` — for a matching
prefix the single replaced occurrence is the prefix itself, so the result is
`new_path` followed by the suffix after `old_path`; with no matching rule the
name is unchanged. -/
def applyRepl : List (String × String) → String → String
  | [], original => original
  | (oldp, newp) :: rest, original =>
    if strPrefixOf oldp original then newp ++ strDropChars original (strLen oldp)
    else applyRepl rest original

mutual

/-- `_replace_paths_in_code(code, path_replacements)`: rewrite the recorded
source location of `code` (normalized by the `norm` collaborator,
`os.path.normpath`) through the rule list, and recurse into every
`types.CodeType` constant. -/
def replacePathsInCode (norm : String → String) (reps : List (String × String)) :
    PyCode → PyCode
  | .mk filename ops consts =>
    .mk (applyRepl reps (norm filename)) ops (replacePathsInCodeList norm reps consts)

/-- The `for i, const in enumerate(new_consts)` loop of
`_replace_paths_in_code`, over the code constants. -/
def replacePathsInCodeList (norm : String → String) (reps : List (String × String)) :
    List PyCode → List PyCode
  | [] => []
  | c :: rest => replacePathsInCode norm reps c :: replacePathsInCodeList norm reps rest

end

theorem replacePathsInCodeList_eq_map (norm : String → String)
    (reps : List (String × String)) (l : List PyCode) :
    replacePathsInCodeList norm reps l = l.map (replacePathsInCode norm reps) := by
  induction l with
  | nil => rfl
  | cons c rest ih => simp [replacePathsInCodeList, ih]

theorem prefix_append_drop (p l : List Char) (h : p.isPrefixOf l = true) :
    l = p ++ l.drop p.length := by
  induction p generalizing l with
  | nil => simp
  | cons a as ih =>
    cases l with
    | nil => simp [List.isPrefixOf] at h
    | cons b bs =>
      simp only [List.isPrefixOf, Bool.and_eq_true, beq_iff_eq] at h
      obtain ⟨rfl, h2⟩ := h
      simpa using ih bs h2

theorem applyRepl_no_match (reps : List (String × String)) (loc : String)
    (h : ∀ p ∈ reps, strPrefixOf p.1 loc = false) :
    applyRepl reps loc = loc := by
  induction reps with
  | nil => rfl
  | cons q rest ih =>
    obtain ⟨oldp, newp⟩ := q
    have hq : strPrefixOf oldp loc = false := h (oldp, newp) (List.mem_cons_self _ _)
    simp only [applyRepl, hq, Bool.false_eq_true, if_false]
    exact ih fun p hp => h p (List.mem_cons_of_mem _ hp)

theorem applyRepl_first_match (pre post : List (String × String)) (oldp newp loc : String)
    (hpre : ∀ p ∈ pre, strPrefixOf p.1 loc = false)
    (hm : strPrefixOf oldp loc = true) :
    ∃ suffix, loc = oldp ++ suffix ∧
      applyRepl (pre ++ (oldp, newp) :: post) loc = newp ++ suffix := by
  induction pre with
  | nil =>
    refine ⟨strDropChars loc (strLen oldp), ?_, ?_⟩
    · have := prefix_append_drop oldp.data loc.data hm
      apply congrArg String.mk this
    · simp [applyRepl, hm]
  | cons q rest ih =>
    obtain ⟨o, n⟩ := q
    have hq : strPrefixOf o loc = false := hpre (o, n) (List.mem_cons_self _ _)
    obtain ⟨suffix, h1, h2⟩ := ih fun p hp => hpre p (List.mem_cons_of_mem _ hp)
    exact ⟨suffix, h1, by simpa [applyRepl, hq] using h2⟩

/-- C9: rewriting a code unit replaces its recorded (normalized) source
location using the first rule whose prefix matches, exactly once (the result
is the replacement followed by the suffix of the location after the matched
prefix); a rule list with no matching prefix leaves the location unchanged;
and the rewrite is applied recursively to every nested code unit among the
unit's constants. -/
theorem c9_path_rewrite (norm : String → String) (reps : List (String × String))
    (code : PyCode) :
    (replacePathsInCode norm reps code).consts =
      code.consts.map (replacePathsInCode norm reps) ∧
    ((∀ p ∈ reps, strPrefixOf p.1 (norm code.filename) = false) →
      (replacePathsInCode norm reps code).filename = norm code.filename) ∧
    (∀ pre post oldp newp, reps = pre ++ (oldp, newp) :: post →
      (∀ p ∈ pre, strPrefixOf p.1 (norm code.filename) = false) →
      strPrefixOf oldp (norm code.filename) = true →
      ∃ suffix, norm code.filename = oldp ++ suffix ∧
        (replacePathsInCode norm reps code).filename = newp ++ suffix) := by
  obtain ⟨f, o, cs⟩ := code
  refine ⟨?_, ?_, ?_⟩
  · simp [replacePathsInCode, PyCode.consts, replacePathsInCodeList_eq_map]
  · intro h
    simpa [replacePathsInCode, PyCode.filename] using applyRepl_no_match reps (norm f) h
  · intro pre post oldp newp hr hpre hm
    subst hr
    simpa [replacePathsInCode, PyCode.filename] using
      applyRepl_first_match pre post oldp newp (norm f) hpre hm

/-- Witness for C9: location `/src/lib/m.py`, rules
`[("/x/", "/y/"), ("/src/", "/dst/")]` — the second rule is the first match. -/
theorem c9_path_rewrite_witness :
    ∃ suffix, id "/src/lib/m.py" = "/src/" ++ suffix ∧
      (replacePathsInCode id [("/x/", "/y/"), ("/src/", "/dst/")]
        (PyCode.mk "/src/lib/m.py" [] [])).filename = "/dst/" ++ suffix :=
  (c9_path_rewrite id [("/x/", "/y/"), ("/src/", "/dst/")]
      (PyCode.mk "/src/lib/m.py" [] [])).2.2
    [("/x/", "/y/")] [] "/src/" "/dst/" rfl (by decide) (by decide)

/-! ## `_scan_code`

The two collaborator calls a directive makes — `importlib.__import__` (whose
`ImportError`/`SyntaxError` raise is embedded as `none`) and
`sys.modules.get` — are oracle parameters.  The module being scanned and
`mf.bad_modules` are the mutated state; `mf.excludes` is carried along to
make its (non-)use by scanning visible. -/

/-- The collaborator calls made while processing one import directive. -/
structure ScanEnv : Type where
  imp : String → List String → Option MFMod
  cached : String → Option MFMod

/-- The state `_scan_code` reads and writes. -/
structure ScanState : Type where
  module : MFMod
  badModules : List (String × List String)
  excludes : List String

/-- `have_star = "*" in fromlist` (lines 102-107). -/
def hasStarSentinel : Option (List String) → Bool
  | some f => decide ("*" ∈ f)
  | none => false

/-- `fromlist = [f for f in fromlist if f != "*"]` (lines 102-107). -/
def stripStar : Option (List String) → List String
  | some f => f.filter (fun x => x ≠ "*")
  | none => []

/-- The `for from_item in fromlist` loop (lines 121-124): record
`f"{name}.{from_item}"` as bad for every fromlist item the resolved package
does not expose as an attribute. -/
def recordFromlist (importer rn : String) (attrs : List String) :
    List String → List (String × List String) → List (String × List String)
  | [], bm => bm
  | x :: rest, bm =>
    recordFromlist importer rn attrs rest
      (if x ∈ attrs then bm else addBad bm (rn ++ "." ++ x) importer)

/-- The `try`/`except`/`else` block of the import case (lines 109-124):
resolve a relative target (a raised `ImportError` records the raw name),
call `importlib.__import__` (a raise records the resolved name), and on
success run the fromlist `hasattr` checks when the result is a package. -/
def importPhase (env : ScanEnv) (st : ScanState) (nm : String)
    (fromlist : Option (List String)) (level : Nat) : ScanState :=
  match (if 0 < level
    then resolveName nm level (calcPackage st.module.name st.module.isPkg)
    else some nm) with
  | none => { st with badModules := addBad st.badModules nm st.module.name }
  | some rn =>
    match env.imp rn (stripStar fromlist) with
    | none => { st with badModules := addBad st.badModules rn st.module.name }
    | some result =>
      if result.isPkg then
        { st with badModules :=
            recordFromlist st.module.name rn result.attrs (stripStar fromlist) st.badModules }
      else st

/-- The `if have_star` block (lines 126-137): union the cached target's
global names and star imports into the scanning module, adding the target
name itself when the target is uncached or has no code. -/
def starPhase (env : ScanEnv) (name1 : String) (haveStar : Bool)
    (st : ScanState) : ScanState :=
  if haveStar then
    match env.cached name1 with
    | some cm =>
      { st with module := { st.module with
          globalNames := sUnion st.module.globalNames cm.globalNames,
          starImports :=
            if cm.code.isNone
            then sInsert name1 (sUnion st.module.starImports cm.starImports)
            else sUnion st.module.starImports cm.starImports } }
    | none =>
      { st with module := { st.module with
          starImports := sInsert name1 st.module.starImports } }
  else st

/-- The import case of the `match opcode_info` loop body of `_scan_code`
(lines 101-137): sentinel stripping, the guarded resolution/import phase,
then wildcard propagation keyed by the final value of the `name` variable. -/
def scanImportOp (env : ScanEnv) (st : ScanState) (nm : String)
    (fromlist : Option (List String)) (level : Nat) : ScanState :=
  starPhase env
    ((if 0 < level
      then resolveName nm level (calcPackage st.module.name st.module.isPkg)
      else some nm).getD nm)
    (hasStarSentinel fromlist)
    (importPhase env st nm fromlist level)

/-- One iteration of the `match opcode_info` loop body of `_scan_code`. -/
def scanOp (env : ScanEnv) (st : ScanState) : OpInfo → ScanState
  | .store nm =>
    { st with module := { st.module with globalNames := sInsert nm st.module.globalNames } }
  | .imp nm fromlist level => scanImportOp env st nm fromlist level

/-- The opcode loop of `_scan_code` over the `_scan_opcodes` stream. -/
def scanOps (env : ScanEnv) : List OpInfo → ScanState → ScanState
  | [], st => st
  | op :: rest, st => scanOps env rest (scanOp env st op)

mutual

/-- `_scan_code(mf, module, code)`: the opcode loop followed by the recursive
scan of every `types.CodeType` constant (lines 143-145). -/
def scanCode (env : ScanEnv) : PyCode → ScanState → ScanState
  | .mk _ ops consts, st => scanCodeList env consts (scanOps env ops st)

/-- The `for const in code.co_consts` recursion of `_scan_code`. -/
def scanCodeList (env : ScanEnv) : List PyCode → ScanState → ScanState
  | [], st => st
  | c :: rest, st => scanCodeList env rest (scanCode env c st)

end

theorem starPhase_badModules (env : ScanEnv) (name1 : String) (b : Bool)
    (st : ScanState) : (starPhase env name1 b st).badModules = st.badModules := by
  unfold starPhase
  split
  · split <;> rfl
  · rfl

theorem importPhase_module (env : ScanEnv) (st : ScanState) (nm : String)
    (fromlist : Option (List String)) (level : Nat) :
    (importPhase env st nm fromlist level).module = st.module ∧
    (importPhase env st nm fromlist level).excludes = st.excludes := by
  unfold importPhase
  split
  · exact ⟨rfl, rfl⟩
  · split
    · exact ⟨rfl, rfl⟩
    · split <;> exact ⟨rfl, rfl⟩

theorem addBad_preserves (bm : List (String × List String)) (k' i' key i : String)
    (h : ∃ s, lookupKey bm key = some s ∧ i ∈ s) :
    ∃ s', lookupKey (addBad bm k' i') key = some s' ∧ i ∈ s' := by
  induction bm with
  | nil => simp [lookupKey] at h
  | cons e rest ih =>
    obtain ⟨k, s⟩ := e
    obtain ⟨s0, hs0, hi⟩ := h
    unfold addBad
    by_cases hk' : k = k'
    · rw [if_pos hk']
      by_cases hkey : k = key
      · have hs : s0 = s := by
          simp only [lookupKey, if_pos hkey] at hs0
          exact (Option.some_inj.mp hs0).symm
        subst hs
        exact ⟨sInsert i' s0, by simp only [lookupKey, if_pos hkey],
          mem_sInsert.mpr (.inr hi)⟩
      · simp only [lookupKey, if_neg hkey] at hs0
        exact ⟨s0, by simp only [lookupKey, if_neg hkey]; exact hs0, hi⟩
    · rw [if_neg hk']
      by_cases hkey : k = key
      · have hs : s0 = s := by
          simp only [lookupKey, if_pos hkey] at hs0
          exact (Option.some_inj.mp hs0).symm
        subst hs
        exact ⟨s0, by simp only [lookupKey, if_pos hkey], hi⟩
      · simp only [lookupKey, if_neg hkey] at hs0
        obtain ⟨s', hs', hi'⟩ := ih ⟨s0, hs0, hi⟩
        exact ⟨s', by simp only [lookupKey, if_neg hkey]; exact hs', hi'⟩

theorem recordFromlist_preserves (importer rn : String) (attrs : List String)
    (fl : List String) (bm : List (String × List String)) (key i : String)
    (h : ∃ s, lookupKey bm key = some s ∧ i ∈ s) :
    ∃ s', lookupKey (recordFromlist importer rn attrs fl bm) key = some s' ∧ i ∈ s' := by
  induction fl generalizing bm with
  | nil => exact h
  | cons x rest ih =>
    unfold recordFromlist
    split
    · exact ih bm h
    · exact ih _ (addBad_preserves bm (rn ++ "." ++ x) importer key i h)

theorem recordFromlist_records (importer rn : String) (attrs : List String)
    (fl : List String) (bm : List (String × List String)) (x : String)
    (hx : x ∈ fl) (ha : x ∉ attrs) :
    ∃ s, lookupKey (recordFromlist importer rn attrs fl bm) (rn ++ "." ++ x) = some s ∧
      importer ∈ s := by
  induction fl generalizing bm with
  | nil => cases hx
  | cons y rest ih =>
    rcases List.mem_cons.mp hx with rfl | hx'
    · unfold recordFromlist
      rw [if_neg ha]
      by_cases hy : x ∈ rest
      · exact ih _ hy
      · refine recordFromlist_preserves importer rn attrs rest _ _ importer ?_
        rw [lookupKey_addBad_self]
        exact ⟨_, rfl, mem_sInsert.mpr (.inl rfl)⟩
    · unfold recordFromlist
      split
      · exact ih bm hx'
      · exact ih _ hx'

/-- C3: a directive whose resolution fails — a relative name that cannot be
resolved (recorded under the raw target) or a target the import machinery
raises on (recorded under the resolved name) — is caught at that directive:
the failure-record entry for the key is created or found and the importing
module's name inserted into it, prior importers are kept, and scanning
proceeds with the remaining directives. -/
theorem c3_failure_recorded_and_contained
    (env : ScanEnv) (st : ScanState) (nm : String) (fromlist : Option (List String))
    (level : Nat) (key : String) (rest : List OpInfo)
    (h : (0 < level ∧
          resolveName nm level (calcPackage st.module.name st.module.isPkg) = none ∧
          key = nm) ∨
         (∃ rn, (if 0 < level
             then resolveName nm level (calcPackage st.module.name st.module.isPkg)
             else some nm) = some rn ∧
           env.imp rn (stripStar fromlist) = none ∧ key = rn)) :
    (∃ s, lookupKey (scanOp env st (.imp nm fromlist level)).badModules key = some s ∧
      st.module.name ∈ s ∧ ∀ i ∈ (lookupKey st.badModules key).getD [], i ∈ s) ∧
    scanOps env (.imp nm fromlist level :: rest) st =
      scanOps env rest (scanOp env st (.imp nm fromlist level)) := by
  refine ⟨?_, rfl⟩
  have hbad : (scanOp env st (.imp nm fromlist level)).badModules =
      addBad st.badModules key st.module.name := by
    show (scanImportOp env st nm fromlist level).badModules = _
    unfold scanImportOp
    rw [starPhase_badModules]
    rcases h with ⟨hl, hres, rfl⟩ | ⟨rn, hres, himp, rfl⟩
    · unfold importPhase
      rw [if_pos hl, hres]
    · unfold importPhase
      rw [hres]
      simp only [himp]
  rw [hbad, lookupKey_addBad_self]
  exact ⟨_, rfl, mem_sInsert.mpr (.inl rfl), fun i hi => mem_sInsert.mpr (.inr hi)⟩

/-- Witness for C3: a directive for `"spam"` whose import raises is recorded
against its importer `"m"`. -/
theorem c3_failure_recorded_and_contained_witness :
    (∃ s, lookupKey (scanOp (ScanEnv.mk (fun _ _ => none) (fun _ => none))
        (ScanState.mk (MFMod.mk "m" false [] none [] []) [] [])
        (.imp "spam" none 0)).badModules "spam" = some s ∧
      "m" ∈ s ∧ ∀ i ∈ (lookupKey ([] : List (String × List String)) "spam").getD [], i ∈ s) ∧
    scanOps (ScanEnv.mk (fun _ _ => none) (fun _ => none))
        (.imp "spam" none 0 :: []) (ScanState.mk (MFMod.mk "m" false [] none [] []) [] []) =
      scanOps (ScanEnv.mk (fun _ _ => none) (fun _ => none)) []
        (scanOp (ScanEnv.mk (fun _ _ => none) (fun _ => none))
          (ScanState.mk (MFMod.mk "m" false [] none [] []) [] []) (.imp "spam" none 0)) :=
  c3_failure_recorded_and_contained (ScanEnv.mk (fun _ _ => none) (fun _ => none))
    (ScanState.mk (MFMod.mk "m" false [] none [] []) [] []) "spam" none 0 "spam" []
    (.inr ⟨"spam", by decide, rfl, rfl⟩)

/-- C7: for a directive whose fromlist carries the `"*"` sentinel, after the
target resolves to `name1`: a cached target with code gets its global names
and star imports unioned into the scanning module; an uncached target, or a
cached one without code, gets `name1` added to the scanning module's
unresolved star imports. -/
theorem c7_star_propagation
    (env : ScanEnv) (st : ScanState) (nm : String) (fromlist : Option (List String))
    (level : Nat) (name1 : String)
    (hstar : hasStarSentinel fromlist = true)
    (hname : ((if 0 < level
        then resolveName nm level (calcPackage st.module.name st.module.isPkg)
        else some nm).getD nm) = name1) :
    (∀ cm, env.cached name1 = some cm → cm.code.isSome →
      (∀ x, x ∈ (scanOp env st (.imp nm fromlist level)).module.globalNames ↔
        x ∈ st.module.globalNames ∨ x ∈ cm.globalNames) ∧
      (∀ x, x ∈ (scanOp env st (.imp nm fromlist level)).module.starImports ↔
        x ∈ st.module.starImports ∨ x ∈ cm.starImports)) ∧
    ((env.cached name1 = none ∨ ∃ cm, env.cached name1 = some cm ∧ cm.code = none) →
      name1 ∈ (scanOp env st (.imp nm fromlist level)).module.starImports) := by
  have hop : scanOp env st (.imp nm fromlist level) =
      starPhase env name1 true (importPhase env st nm fromlist level) := by
    show scanImportOp env st nm fromlist level = _
    unfold scanImportOp
    rw [hname, hstar]
  have hmod : (importPhase env st nm fromlist level).module = st.module :=
    (importPhase_module env st nm fromlist level).1
  constructor
  · intro cm hc hcode
    cases hcc : cm.code with
    | none => rw [hcc] at hcode; simp at hcode
    | some c =>
      rw [hop]
      unfold starPhase
      rw [if_pos rfl, hc]
      dsimp only
      simp only [hmod, hcc, Option.isNone_some, Bool.false_eq_true, if_false]
      exact ⟨fun x => mem_sUnion, fun x => mem_sUnion⟩
  · intro hcase
    rw [hop]
    unfold starPhase
    rw [if_pos rfl]
    rcases hcase with hc | ⟨cm, hc, hcc⟩
    · rw [hc]
      dsimp only
      simp only [hmod]
      exact mem_sInsert.mpr (.inl rfl)
    · rw [hc]
      dsimp only
      simp only [hmod, hcc, Option.isNone_none, if_true]
      exact mem_sInsert.mpr (.inl rfl)

/-- Witness for C7: `from spam import *` where `spam` is cached with code:
its global names leak into the importer. -/
theorem c7_star_propagation_witness :
    (∀ cm, (fun (_ : String) =>
        some (MFMod.mk "spam" false [] (some (PyCode.mk "spam.py" [] [])) ["g1"] []))
          "spam" = some cm → cm.code.isSome →
      (∀ x, x ∈ (scanOp
          (ScanEnv.mk (fun _ _ => none)
            (fun _ => some (MFMod.mk "spam" false [] (some (PyCode.mk "spam.py" [] [])) ["g1"] [])))
          (ScanState.mk (MFMod.mk "m" false [] none [] []) [] [])
          (.imp "spam" (some ["*"]) 0)).module.globalNames ↔
        x ∈ (MFMod.mk "m" false [] none [] []).globalNames ∨ x ∈ cm.globalNames) ∧
      (∀ x, x ∈ (scanOp
          (ScanEnv.mk (fun _ _ => none)
            (fun _ => some (MFMod.mk "spam" false [] (some (PyCode.mk "spam.py" [] [])) ["g1"] [])))
          (ScanState.mk (MFMod.mk "m" false [] none [] []) [] [])
          (.imp "spam" (some ["*"]) 0)).module.starImports ↔
        x ∈ (MFMod.mk "m" false [] none [] []).starImports ∨ x ∈ cm.starImports)) ∧
    (((fun (_ : String) =>
        some (MFMod.mk "spam" false [] (some (PyCode.mk "spam.py" [] [])) ["g1"] []))
          "spam" = none ∨
      ∃ cm, (fun (_ : String) =>
          some (MFMod.mk "spam" false [] (some (PyCode.mk "spam.py" [] [])) ["g1"] []))
            "spam" = some cm ∧ cm.code = none) →
      "spam" ∈ (scanOp
        (ScanEnv.mk (fun _ _ => none)
          (fun _ => some (MFMod.mk "spam" false [] (some (PyCode.mk "spam.py" [] [])) ["g1"] [])))
        (ScanState.mk (MFMod.mk "m" false [] none [] []) [] [])
        (.imp "spam" (some ["*"]) 0)).module.starImports) :=
  c7_star_propagation
    (ScanEnv.mk (fun _ _ => none)
      (fun _ => some (MFMod.mk "spam" false [] (some (PyCode.mk "spam.py" [] [])) ["g1"] [])))
    (ScanState.mk (MFMod.mk "m" false [] none [] []) [] [])
    "spam" (some ["*"]) 0 "spam" (by decide) rfl

/-- C8: with a non-empty fromlist, the `"*"` sentinel is stripped before
explicit-name handling, and when the resolved target is a package every
remaining fromlist name the target does not expose is recorded in the
failure record under `target.name` with the importing module as importer. -/
theorem c8_fromlist_recording
    (env : ScanEnv) (st : ScanState) (nm : String) (fromlist : Option (List String))
    (level : Nat) (rn : String) (result : MFMod)
    (hres : (if 0 < level
        then resolveName nm level (calcPackage st.module.name st.module.isPkg)
        else some nm) = some rn)
    (himp : env.imp rn (stripStar fromlist) = some result)
    (hpkg : result.isPkg = true) :
    (∀ fl x, fromlist = some fl → (x ∈ stripStar fromlist ↔ x ∈ fl ∧ x ≠ "*")) ∧
    (∀ x, x ∈ stripStar fromlist → x ∉ result.attrs →
      ∃ s, lookupKey (scanOp env st (.imp nm fromlist level)).badModules
          (rn ++ "." ++ x) = some s ∧ st.module.name ∈ s) := by
  constructor
  · rintro fl x rfl
    simp [stripStar]
  · intro x hx ha
    have hbad : (scanOp env st (.imp nm fromlist level)).badModules =
        recordFromlist st.module.name rn result.attrs (stripStar fromlist) st.badModules := by
      show (scanImportOp env st nm fromlist level).badModules = _
      unfold scanImportOp
      rw [starPhase_badModules]
      unfold importPhase
      rw [hres]
      simp only [himp, hpkg, if_pos]
    rw [hbad]
    exact recordFromlist_records st.module.name rn result.attrs (stripStar fromlist)
      st.badModules x hx ha

/-- Witness for C8: `from pkg import a, *, b` against a package exposing
neither: both `pkg.a` and `pkg.b` get recorded, the sentinel is stripped. -/
theorem c8_fromlist_recording_witness :
    (∀ fl x, (some ["a", "*", "b"] : Option (List String)) = some fl →
      (x ∈ stripStar (some ["a", "*", "b"]) ↔ x ∈ fl ∧ x ≠ "*")) ∧
    (∀ x, x ∈ stripStar (some ["a", "*", "b"]) → x ∉ (MFMod.mk "pkg" true [] none [] []).attrs →
      ∃ s, lookupKey (scanOp
          (ScanEnv.mk (fun _ _ => some (MFMod.mk "pkg" true [] none [] []))
            (fun _ => none))
          (ScanState.mk (MFMod.mk "m" false [] none [] []) [] [])
          (.imp "pkg" (some ["a", "*", "b"]) 0)).badModules
          ("pkg" ++ "." ++ x) = some s ∧ "m" ∈ s) :=
  c8_fromlist_recording
    (ScanEnv.mk (fun _ _ => some (MFMod.mk "pkg" true [] none [] []))
      (fun _ => none))
    (ScanState.mk (MFMod.mk "m" false [] none [] []) [] [])
    "pkg" (some ["a", "*", "b"]) 0 "pkg" (MFMod.mk "pkg" true [] none [] [])
    (by decide) rfl rfl

/-- C5: evaluation of the scan step at the failing input for the exclusion
claim.  With `"spam"` in `excludes`, a directive importing `"spam"` still
consults the Finder/Loader oracle and records nothing when the lookup
succeeds (first conjunct); the identical state with a failing lookup records
the failure (second conjunct): exclusion plays no role during scanning. -/
theorem c5_excludes_ignored_by_scan :
    (scanOp (ScanEnv.mk
        (fun n _ => if n = "spam"
          then some (MFMod.mk "spam" false [] (some (PyCode.mk "spam.py" [] [])) [] [])
          else none)
        (fun _ => none))
      (ScanState.mk (MFMod.mk "m" false [] none [] []) [] ["spam"])
      (.imp "spam" none 0)).badModules = [] ∧
    (scanOp (ScanEnv.mk (fun _ _ => none) (fun _ => none))
      (ScanState.mk (MFMod.mk "m" false [] none [] []) [] ["spam"])
      (.imp "spam" none 0)).badModules = [("spam", ["m"])] := by
  constructor <;> rfl

/-! ## `any_missing_maybe`

The classifier is a pure pass over `(modules, bad_modules, excludes)`.
`bad_modules` is a `dict`, embedded as an association list iterated in
insertion order; theorems that need key uniqueness take it as a `Nodup`
hypothesis.  Python's `list.sort()` is embedded as an insertion sort on the
code-point order (only membership and duplicate-freeness of the sorted
output matter to the claims). -/

/-- The `ModuleFinder` state read by `any_missing_maybe`. -/
structure FState : Type where
  modules : List (String × MFMod)
  badModules : List (String × List String)
  excludes : List String

/-- Code-point lexicographic comparison of strings, embedding the order
`list.sort()` uses on `str`. -/
def charListLe : List Char → List Char → Bool
  | [], _ => true
  | _ :: _, [] => false
  | a :: as, b :: bs => if a = b then charListLe as bs else decide (a < b)

/-- Insert into a sorted list. -/
def insertSorted (x : String) : List String → List String
  | [] => [x]
  | y :: rest =>
    if charListLe x.data y.data then x :: y :: rest else y :: insertSorted x rest

/-- `list.sort()` on strings. -/
def sortStrs : List String → List String
  | [] => []
  | x :: rest => insertSorted x (sortStrs rest)

/-- The loop body of `any_missing_maybe` (lines 324-355) for one
`bad_modules` entry, appending to the `(missing, maybe)` accumulators. -/
def classifyStep (s : FState) (acc : List String × List String)
    (e : String × List String) : List String × List String :=
  if e.1 ∈ s.excludes then acc
  else if hasDot e.1 = false then (acc.1 ++ [e.1], acc.2)
  else
    match lookupKey s.modules (rpartitionDot e.1).1 with
    | some pkg =>
      if (rpartitionDot e.1).1 ∈ e.2 then (acc.1 ++ [e.1], acc.2)
      else if (rpartitionDot e.1).2 ∈ pkg.globalNames then acc
      else if pkg.starImports ≠ [] then (acc.1, acc.2 ++ [e.1])
      else (acc.1 ++ [e.1], acc.2)
    | none => (acc.1 ++ [e.1], acc.2)

/-- `any_missing_maybe()`: the classification loop over `bad_modules`
followed by `missing.sort()` and `maybe.sort()`. -/
def anyMissingMaybe (s : FState) : List String × List String :=
  (sortStrs (s.badModules.foldl (classifyStep s) ([], [])).1,
   sortStrs (s.badModules.foldl (classifyStep s) ([], [])).2)

/-- Spec-side classifier (§4.4): does the entry land in the missing list? -/
def entryMissing (s : FState) (e : String × List String) : Bool :=
  if e.1 ∈ s.excludes then false
  else if hasDot e.1 = false then true
  else
    match lookupKey s.modules (rpartitionDot e.1).1 with
    | some pkg =>
      if (rpartitionDot e.1).1 ∈ e.2 then true
      else if (rpartitionDot e.1).2 ∈ pkg.globalNames then false
      else if pkg.starImports ≠ [] then false
      else true
    | none => true

/-- Spec-side classifier (§4.4): does the entry land in the maybe list? -/
def entryMaybe (s : FState) (e : String × List String) : Bool :=
  if e.1 ∈ s.excludes then false
  else if hasDot e.1 = false then false
  else
    match lookupKey s.modules (rpartitionDot e.1).1 with
    | some pkg =>
      if (rpartitionDot e.1).1 ∈ e.2 then false
      else if (rpartitionDot e.1).2 ∈ pkg.globalNames then false
      else if pkg.starImports ≠ [] then true
      else false
    | none => false

theorem perm_insertSorted (x : String) (l : List String) :
    (insertSorted x l).Perm (x :: l) := by
  induction l with
  | nil => exact List.Perm.refl _
  | cons y rest ih =>
    unfold insertSorted
    split
    · exact List.Perm.refl _
    · exact ((ih.cons y).trans (List.Perm.swap x y rest))

theorem perm_sortStrs (l : List String) : (sortStrs l).Perm l := by
  induction l with
  | nil => exact List.Perm.refl _
  | cons x rest ih =>
    exact (perm_insertSorted x (sortStrs rest)).trans (ih.cons x)

theorem classifyStep_eq (s : FState) (acc : List String × List String)
    (e : String × List String) :
    classifyStep s acc e =
      (acc.1 ++ (if entryMissing s e then [e.1] else []),
       acc.2 ++ (if entryMaybe s e then [e.1] else [])) := by
  unfold classifyStep entryMissing entryMaybe
  by_cases h1 : e.1 ∈ s.excludes
  · simp [h1]
  · by_cases h2 : hasDot e.1 = false
    · simp [h1, h2]
    · cases hm : lookupKey s.modules (rpartitionDot e.1).1 with
      | none => simp [h1, h2, hm]
      | some pkg =>
        by_cases h3 : (rpartitionDot e.1).1 ∈ e.2
        · simp [h1, h2, hm, h3]
        · by_cases h4 : (rpartitionDot e.1).2 ∈ pkg.globalNames
          · simp [h1, h2, hm, h3, h4]
          · by_cases h5 : pkg.starImports = []
            · simp [h1, h2, hm, h3, h4, h5]
            · simp [h1, h2, hm, h3, h4, h5]

theorem foldl_classifyStep (s : FState) (l : List (String × List String))
    (acc : List String × List String) :
    l.foldl (classifyStep s) acc =
      (acc.1 ++ (l.filter (entryMissing s)).map Prod.fst,
       acc.2 ++ (l.filter (entryMaybe s)).map Prod.fst) := by
  induction l generalizing acc with
  | nil => simp
  | cons e rest ih =>
    rw [List.foldl_cons, classifyStep_eq, ih]
    cases hmi : entryMissing s e <;> cases hma : entryMaybe s e <;>
      simp [List.filter_cons, hmi, hma]

theorem mem_missing_iff (s : FState) (x : String) :
    x ∈ (anyMissingMaybe s).1 ↔
      ∃ e ∈ s.badModules, e.1 = x ∧ entryMissing s e = true := by
  unfold anyMissingMaybe
  rw [(perm_sortStrs _).mem_iff, foldl_classifyStep]
  simp only [List.nil_append, List.mem_map, List.mem_filter]
  constructor
  · rintro ⟨e, ⟨he, hc⟩, rfl⟩
    exact ⟨e, he, rfl, hc⟩
  · rintro ⟨e, he, rfl, hc⟩
    exact ⟨e, ⟨he, hc⟩, rfl⟩

theorem mem_maybe_iff (s : FState) (x : String) :
    x ∈ (anyMissingMaybe s).2 ↔
      ∃ e ∈ s.badModules, e.1 = x ∧ entryMaybe s e = true := by
  unfold anyMissingMaybe
  rw [(perm_sortStrs _).mem_iff, foldl_classifyStep]
  simp only [List.nil_append, List.mem_map, List.mem_filter]
  constructor
  · rintro ⟨e, ⟨he, hc⟩, rfl⟩
    exact ⟨e, he, rfl, hc⟩
  · rintro ⟨e, he, rfl, hc⟩
    exact ⟨e, ⟨he, hc⟩, rfl⟩

theorem keyUnique {α : Type} (l : List (String × α))
    (hn : (l.map Prod.fst).Nodup) (k : String) (v v' : α)
    (h1 : (k, v) ∈ l) (h2 : (k, v') ∈ l) : v = v' := by
  induction l with
  | nil => cases h1
  | cons e rest ih =>
    rw [List.map_cons, List.nodup_cons] at hn
    rcases List.mem_cons.mp h1 with rfl | h1'
    · rcases List.mem_cons.mp h2 with he | h2'
      · exact congrArg Prod.snd he.symm
      · exact absurd (List.mem_map.mpr ⟨(k, v'), h2', rfl⟩) hn.1
    · rcases List.mem_cons.mp h2 with rfl | h2'
      · exact absurd (List.mem_map.mpr ⟨(k, v), h1', rfl⟩) hn.1
      · exact ih hn.2 h1' h2'

theorem mem_key_isSome {α : Type} (l : List (String × α)) (k : String) (v : α)
    (h : (k, v) ∈ l) : (lookupKey l k).isSome = true := by
  induction l with
  | nil => cases h
  | cons e rest ih =>
    obtain ⟨k', v'⟩ := e
    rcases List.mem_cons.mp h with he | h'
    · cases he
      simp [lookupKey]
    · by_cases hk : k' = k
      · simp [lookupKey, hk]
      · simpa [lookupKey, hk] using ih h'

theorem entry_true_not_excluded (s : FState) (e : String × List String)
    (h : entryMissing s e = true ∨ entryMaybe s e = true) : e.1 ∉ s.excludes := by
  intro hexc
  rcases h with h | h
  · unfold entryMissing at h
    simp [hexc] at h
  · unfold entryMaybe at h
    simp [hexc] at h

theorem entryMissing_maybe_exclusive (s : FState) (e : String × List String)
    (h : entryMissing s e = true) : entryMaybe s e = false := by
  unfold entryMissing at h
  unfold entryMaybe
  by_cases h1 : e.1 ∈ s.excludes
  · simp [h1] at h
  · by_cases h2 : hasDot e.1 = false
    · simp [h1, h2]
    · cases hm : lookupKey s.modules (rpartitionDot e.1).1 with
      | none => simp [h1, h2, hm]
      | some pkg =>
        by_cases h3 : (rpartitionDot e.1).1 ∈ e.2
        · simp [h1, h2, hm, h3]
        · by_cases h4 : (rpartitionDot e.1).2 ∈ pkg.globalNames
          · simp [h1, h2, hm, h3, h4] at h
          · by_cases h5 : pkg.starImports = []
            · simp [h1, h2, hm, h3, h4, h5]
            · simp [h1, h2, hm, h3, h4, h5] at h

/-- C1: placement of a failed name by `any_missing_maybe`, per the failure
record entry `(name, importers)`: no dot — missing; parent absent from the
registry — missing; parent among the recorded importers — missing; tail
component bound in the parent — neither list; parent has unresolved
star-import sources — maybe; otherwise missing. -/
theorem c1_classification (s : FState) (name : String) (importers : List String)
    (hnodup : (s.badModules.map Prod.fst).Nodup)
    (hmem : (name, importers) ∈ s.badModules)
    (hexc : name ∉ s.excludes) :
    (hasDot name = false → name ∈ (anyMissingMaybe s).1) ∧
    (hasDot name = true →
      (lookupKey s.modules (rpartitionDot name).1 = none → name ∈ (anyMissingMaybe s).1) ∧
      (∀ pkg, lookupKey s.modules (rpartitionDot name).1 = some pkg →
        ((rpartitionDot name).1 ∈ importers → name ∈ (anyMissingMaybe s).1) ∧
        ((rpartitionDot name).1 ∉ importers → (rpartitionDot name).2 ∈ pkg.globalNames →
          name ∉ (anyMissingMaybe s).1 ∧ name ∉ (anyMissingMaybe s).2) ∧
        ((rpartitionDot name).1 ∉ importers → (rpartitionDot name).2 ∉ pkg.globalNames →
          pkg.starImports ≠ [] → name ∈ (anyMissingMaybe s).2) ∧
        ((rpartitionDot name).1 ∉ importers → (rpartitionDot name).2 ∉ pkg.globalNames →
          pkg.starImports = [] → name ∈ (anyMissingMaybe s).1))) := by
  constructor
  · intro hd
    refine (mem_missing_iff s name).mpr ⟨(name, importers), hmem, rfl, ?_⟩
    unfold entryMissing
    simp [hexc, hd]
  · intro hd
    constructor
    · intro hlook
      refine (mem_missing_iff s name).mpr ⟨(name, importers), hmem, rfl, ?_⟩
      unfold entryMissing
      simp [hexc, hd, hlook]
    · intro pkg hpkg
      refine ⟨?_, ?_, ?_, ?_⟩
      · intro himp
        refine (mem_missing_iff s name).mpr ⟨(name, importers), hmem, rfl, ?_⟩
        unfold entryMissing
        simp [hexc, hd, hpkg, himp]
      · intro himp hglob
        have hf1 : entryMissing s (name, importers) = false := by
          unfold entryMissing
          simp [hexc, hd, hpkg, himp, hglob]
        have hf2 : entryMaybe s (name, importers) = false := by
          unfold entryMaybe
          simp [hexc, hd, hpkg, himp, hglob]
        constructor
        · intro hx
          obtain ⟨⟨k, v⟩, he, hk, hc⟩ := (mem_missing_iff s name).mp hx
          have hk' : k = name := hk
          subst hk'
          rw [keyUnique s.badModules hnodup k v importers he hmem] at hc
          rw [hf1] at hc
          cases hc
        · intro hx
          obtain ⟨⟨k, v⟩, he, hk, hc⟩ := (mem_maybe_iff s name).mp hx
          have hk' : k = name := hk
          subst hk'
          rw [keyUnique s.badModules hnodup k v importers he hmem] at hc
          rw [hf2] at hc
          cases hc
      · intro himp hglob hstar
        refine (mem_maybe_iff s name).mpr ⟨(name, importers), hmem, rfl, ?_⟩
        unfold entryMaybe
        simp [hexc, hd, hpkg, himp, hglob, hstar]
      · intro himp hglob hstar
        refine (mem_missing_iff s name).mpr ⟨(name, importers), hmem, rfl, ?_⟩
        unfold entryMissing
        simp [hexc, hd, hpkg, himp, hglob, hstar]

/-- Witness for C1: a dotless failed name `"blah"` is definitely missing. -/
theorem c1_classification_witness :
    (hasDot "blah" = false →
      "blah" ∈ (anyMissingMaybe (FState.mk [] [("blah", ["m"])] [])).1) ∧
    (hasDot "blah" = true →
      (lookupKey (FState.mk [] [("blah", ["m"])] []).modules (rpartitionDot "blah").1 = none →
        "blah" ∈ (anyMissingMaybe (FState.mk [] [("blah", ["m"])] [])).1) ∧
      (∀ pkg, lookupKey (FState.mk [] [("blah", ["m"])] []).modules (rpartitionDot "blah").1 = some pkg →
        ((rpartitionDot "blah").1 ∈ ["m"] →
          "blah" ∈ (anyMissingMaybe (FState.mk [] [("blah", ["m"])] [])).1) ∧
        ((rpartitionDot "blah").1 ∉ ["m"] → (rpartitionDot "blah").2 ∈ pkg.globalNames →
          "blah" ∉ (anyMissingMaybe (FState.mk [] [("blah", ["m"])] [])).1 ∧
          "blah" ∉ (anyMissingMaybe (FState.mk [] [("blah", ["m"])] [])).2) ∧
        ((rpartitionDot "blah").1 ∉ ["m"] → (rpartitionDot "blah").2 ∉ pkg.globalNames →
          pkg.starImports ≠ [] →
          "blah" ∈ (anyMissingMaybe (FState.mk [] [("blah", ["m"])] [])).2) ∧
        ((rpartitionDot "blah").1 ∉ ["m"] → (rpartitionDot "blah").2 ∉ pkg.globalNames →
          pkg.starImports = [] →
          "blah" ∈ (anyMissingMaybe (FState.mk [] [("blah", ["m"])] [])).1))) :=
  c1_classification (FState.mk [] [("blah", ["m"])] []) "blah" ["m"]
    (by decide) (by decide) (by decide)

/-- The package record of the C2 counterexample: `"p"` is registered and has
a non-empty set of unresolved star-import sources. -/
def c2Pkg : MFMod :=
  MFMod.mk "p" true [] none [] ["s"]

/-- The C2 counterexample state: `"p.x"` failed, and its own parent `"p"` is
recorded as an importer of it; `"p"` is in the registry with star imports. -/
def c2State : FState :=
  FState.mk [("p", c2Pkg)] [("p.x", ["p"])] []

/-- C2 counterexample: the parent of `"p.x"` is in the registry and has
non-empty unresolved star-import sources, yet `any_missing_maybe` places
`"p.x"` in the definitely-missing list, because the parent itself is among
the recorded importers — refuting the claim that such a name is never
definitely missing. -/
theorem c2_counterexample :
    lookupKey c2State.modules (rpartitionDot "p.x").1 = some c2Pkg ∧
    c2Pkg.starImports ≠ [] ∧
    "p.x" ∈ (anyMissingMaybe c2State).1 ∧ "p.x" ∉ (anyMissingMaybe c2State).2 :=
  ⟨rfl, by decide, by decide, by decide⟩

/-- C2 amended: if the failed name's parent is in the registry with non-empty
unresolved star-import sources **and the parent is not among the importers
recorded for the name**, then the name is kept out of the definitely-missing
list (it goes to maybe-missing unless its tail component is bound in the
parent). -/
theorem c2_amended_star_taint (s : FState) (name : String) (importers : List String)
    (pkg : MFMod)
    (hnodup : (s.badModules.map Prod.fst).Nodup)
    (hmem : (name, importers) ∈ s.badModules)
    (hexc : name ∉ s.excludes)
    (hdot : hasDot name = true)
    (hpkg : lookupKey s.modules (rpartitionDot name).1 = some pkg)
    (hstar : pkg.starImports ≠ [])
    (himp : (rpartitionDot name).1 ∉ importers) :
    name ∉ (anyMissingMaybe s).1 ∧
    ((rpartitionDot name).2 ∉ pkg.globalNames → name ∈ (anyMissingMaybe s).2) := by
  constructor
  · intro hx
    obtain ⟨⟨k, v⟩, he, hk, hc⟩ := (mem_missing_iff s name).mp hx
    have hk' : k = name := hk
    subst hk'
    rw [keyUnique s.badModules hnodup k v importers he hmem] at hc
    have hf : entryMissing s (k, importers) = false := by
      unfold entryMissing
      by_cases hglob : (rpartitionDot k).2 ∈ pkg.globalNames
      · simp [hexc, hdot, hpkg, himp, hglob]
      · simp [hexc, hdot, hpkg, himp, hglob, hstar]
    rw [hf] at hc
    cases hc
  · intro hglob
    refine (mem_maybe_iff s name).mpr ⟨(name, importers), hmem, rfl, ?_⟩
    unfold entryMaybe
    simp [hexc, hdot, hpkg, himp, hglob, hstar]

/-- Witness for the amended C2: `"p.x"` failed with importer `"q"` only, the
parent `"p"` is registered with star imports — `"p.x"` is maybe-missing. -/
theorem c2_amended_star_taint_witness :
    "p.x" ∉ (anyMissingMaybe (FState.mk [("p", c2Pkg)] [("p.x", ["q"])] [])).1 ∧
    ((rpartitionDot "p.x").2 ∉ c2Pkg.globalNames →
      "p.x" ∈ (anyMissingMaybe (FState.mk [("p", c2Pkg)] [("p.x", ["q"])] [])).2) :=
  c2_amended_star_taint (FState.mk [("p", c2Pkg)] [("p.x", ["q"])] []) "p.x" ["q"] c2Pkg
    (by decide) (by decide) (by decide) (by decide) rfl (by decide) (by decide)

/-- C10: under the `dict` key-uniqueness of `bad_modules`, the two lists
returned by `any_missing_maybe` are disjoint and duplicate-free, and every
listed name is a `bad_modules` key outside the exclude set.  (The embedded
call is a pure function of the finder state, mirroring that the method only
reads `modules`, `bad_modules` and `excludes`.) -/
theorem c10_output_invariants (s : FState)
    (hnodup : (s.badModules.map Prod.fst).Nodup) :
    (∀ x, x ∈ (anyMissingMaybe s).1 → x ∉ (anyMissingMaybe s).2) ∧
    (anyMissingMaybe s).1.Nodup ∧ (anyMissingMaybe s).2.Nodup ∧
    (∀ x, x ∈ (anyMissingMaybe s).1 ∨ x ∈ (anyMissingMaybe s).2 →
      (lookupKey s.badModules x).isSome = true ∧ x ∉ s.excludes) := by
  refine ⟨?_, ?_, ?_, ?_⟩
  · intro x h1 h2
    obtain ⟨⟨k, v⟩, he, hk, hc⟩ := (mem_missing_iff s x).mp h1
    obtain ⟨⟨k', v'⟩, he', hk', hc'⟩ := (mem_maybe_iff s x).mp h2
    have hkk : k = x := hk
    have hkk' : k' = x := hk'
    rw [hkk] at he hc
    rw [hkk'] at he' hc'
    rw [keyUnique s.badModules hnodup x v' v he' he] at hc'
    rw [entryMissing_maybe_exclusive s (x, v) hc] at hc'
    cases hc'
  · unfold anyMissingMaybe
    rw [(perm_sortStrs _).nodup_iff, foldl_classifyStep]
    simp only [List.nil_append]
    exact ((List.filter_sublist _).map Prod.fst).nodup hnodup
  · unfold anyMissingMaybe
    rw [(perm_sortStrs _).nodup_iff, foldl_classifyStep]
    simp only [List.nil_append]
    exact ((List.filter_sublist _).map Prod.fst).nodup hnodup
  · intro x hx
    have hex : ∃ v, (x, v) ∈ s.badModules ∧
        (entryMissing s (x, v) = true ∨ entryMaybe s (x, v) = true) := by
      rcases hx with hx | hx
      · obtain ⟨⟨k, v⟩, he, hk, hc⟩ := (mem_missing_iff s x).mp hx
        have hkk : k = x := hk
        subst hkk
        exact ⟨v, he, .inl hc⟩
      · obtain ⟨⟨k, v⟩, he, hk, hc⟩ := (mem_maybe_iff s x).mp hx
        have hkk : k = x := hk
        subst hkk
        exact ⟨v, he, .inr hc⟩
    obtain ⟨v, hv, hcls⟩ := hex
    exact ⟨mem_key_isSome s.badModules x v hv, entry_true_not_excluded s (x, v) hcls⟩

/-- Witness for C10 at a two-entry failure record. -/
theorem c10_output_invariants_witness :
    (∀ x, x ∈ (anyMissingMaybe (FState.mk [("p", c2Pkg)] [("p.x", ["q"]), ("blah", ["m"])] ["ex"])).1 →
      x ∉ (anyMissingMaybe (FState.mk [("p", c2Pkg)] [("p.x", ["q"]), ("blah", ["m"])] ["ex"])).2) ∧
    (anyMissingMaybe (FState.mk [("p", c2Pkg)] [("p.x", ["q"]), ("blah", ["m"])] ["ex"])).1.Nodup ∧
    (anyMissingMaybe (FState.mk [("p", c2Pkg)] [("p.x", ["q"]), ("blah", ["m"])] ["ex"])).2.Nodup ∧
    (∀ x, x ∈ (anyMissingMaybe (FState.mk [("p", c2Pkg)] [("p.x", ["q"]), ("blah", ["m"])] ["ex"])).1 ∨
        x ∈ (anyMissingMaybe (FState.mk [("p", c2Pkg)] [("p.x", ["q"]), ("blah", ["m"])] ["ex"])).2 →
      (lookupKey (FState.mk [("p", c2Pkg)] [("p.x", ["q"]), ("blah", ["m"])] ["ex"]).badModules x).isSome = true ∧
        x ∉ (FState.mk [("p", c2Pkg)] [("p.x", ["q"]), ("blah", ["m"])] ["ex"]).excludes) :=
  c10_output_invariants (FState.mk [("p", c2Pkg)] [("p.x", ["q"]), ("blah", ["m"])] ["ex"])
    (by decide)

/-! ## The recursive import driver (claim C6)

Modelled from the spec: the recursion driver `_scan_code` delegates to —
`importlib.__import__` together with the `_bootstrap` module-loading
protocol — is standard-library code, not part of this repository.  Its
protocol is modelled after spec §4.3: a Registry cache hit returns the
(possibly in-progress) record without re-entry; on a miss the Finder is
consulted, a miss there is recorded as a failure, and a found module's fresh
record is registered **before** its code is scanned — matching the
`sys.modules[name] = module` before `spec.loader.exec_module(module)` order
visible at `ModuleFinder._import_from_file` (source lines 277-288) and the
`_MFLoader.exec_module` scan.  The model is restricted to absolute,
fromlist-free import directives over flat code units, which is what the
cycle-safety claim exercises.  `trace` records, in order, the names whose
analysis has started; fuel bounds the recursion depth (a cache hit consumes
no fuel). -/

/-- Engine state: the Registry (`sys.modules` stand-in), the failure record,
and the analysis-start trace. -/
structure EngState : Type where
  modules : List (String × MFMod)
  badModules : List (String × List String)
  trace : List String

/-- Add a bound global name to the registered record of `key`. -/
def updateGlobal : List (String × MFMod) → String → String → List (String × MFMod)
  | [], _, _ => []
  | (k, m) :: rest, key, g =>
    if k = key then (k, { m with globalNames := sInsert g m.globalNames }) :: rest
    else (k, m) :: updateGlobal rest key g

/-- Register a fresh in-progress record for `name` (and note the analysis
start) before any of its code is scanned. -/
def engRegister (name : String) (code : PyCode) (st : EngState) : EngState :=
  { st with
    modules := (name, MFMod.mk name false [] (some code) [] []) :: st.modules,
    trace := st.trace ++ [name] }

mutual

/-- Modelled from the spec: `resolveImport` (§4.3) — cache hit, Finder miss
recorded as failure, or register-then-analyze. -/
def engResolve (env : List (String × PyCode)) (fuel : Nat) (importer name : String)
    (st : EngState) : Option EngState :=
  match lookupKey st.modules name with
  | some _ => some st
  | none =>
    match fuel with
    | 0 => none
    | f + 1 =>
      match lookupKey env name with
      | none => some { st with badModules := addBad st.badModules name importer }
      | some code => engScanOps env f name code.ops (engRegister name code st)
termination_by (fuel, 0)

/-- Modelled from the spec: the analyzer-fact loop — `store` facts bind
globals on the module under analysis, `import` facts re-enter
`resolveImport`. -/
def engScanOps (env : List (String × PyCode)) (fuel : Nat) (mname : String)
    (ops : List OpInfo) (st : EngState) : Option EngState :=
  match ops with
  | [] => some st
  | .store g :: rest =>
    engScanOps env fuel mname rest { st with modules := updateGlobal st.modules mname g }
  | .imp nm _ _ :: rest =>
    match engResolve env fuel mname nm st with
    | none => none
    | some st' => engScanOps env fuel mname rest st'
termination_by (fuel, ops.length + 1)

end

/-- The C6 Registry invariant: every module whose analysis has started is
registered, and none was analyzed twice. -/
def engInv (st : EngState) : Prop :=
  st.trace.Nodup ∧ ∀ n ∈ st.trace, (lookupKey st.modules n).isSome = true

theorem lookupKey_updateGlobal_isSome (l : List (String × MFMod)) (key g k : String) :
    (lookupKey (updateGlobal l key g) k).isSome = (lookupKey l k).isSome := by
  induction l with
  | nil => rfl
  | cons e rest ih =>
    obtain ⟨k', m⟩ := e
    by_cases h1 : k' = key
    · subst h1
      by_cases h2 : k' = k <;> simp [updateGlobal, lookupKey, h2, ih]
    · by_cases h2 : k' = k
      · subst h2
        simp [updateGlobal, lookupKey, h1, ih]
      · simp [updateGlobal, lookupKey, h1, h2, ih]

theorem lookupKey_cons_isSome (l : List (String × MFMod)) (a : String) (m : MFMod)
    (k : String) (h : (lookupKey l k).isSome = true) :
    (lookupKey ((a, m) :: l) k).isSome = true := by
  by_cases ha : a = k <;> simp [lookupKey, ha, h]

/-- Registered modules are never removed. -/
def engMono (st st' : EngState) : Prop :=
  ∀ k, (lookupKey st.modules k).isSome = true → (lookupKey st'.modules k).isSome = true

theorem engRegister_inv (name : String) (code : PyCode) (st : EngState)
    (hmiss : lookupKey st.modules name = none) (hinv : engInv st) :
    engInv (engRegister name code st) := by
  obtain ⟨hnd, hreg⟩ := hinv
  have hnotin : name ∉ st.trace := by
    intro hmem
    have hs := hreg name hmem
    rw [hmiss] at hs
    cases hs
  constructor
  · exact List.Nodup.append hnd (List.nodup_singleton name)
      (fun x hx hx1 => by
        rw [List.mem_singleton] at hx1
        subst hx1
        exact hnotin hx)
  · intro n hn
    rcases List.mem_append.mp hn with hn | hn
    · exact lookupKey_cons_isSome _ _ _ _ (hreg n hn)
    · rw [List.mem_singleton] at hn
      subst hn
      simp [engRegister, lookupKey]

theorem engScan_pres_of_resolve (env : List (String × PyCode)) (fuel : Nat)
    (hres : ∀ importer name st st', engResolve env fuel importer name st = some st' →
      engMono st st' ∧ (engInv st → engInv st')) :
    ∀ ops mname st st', engScanOps env fuel mname ops st = some st' →
      engMono st st' ∧ (engInv st → engInv st') := by
  intro ops
  induction ops with
  | nil =>
    intro mname st st' h
    unfold engScanOps at h
    injection h with h
    subst h
    exact ⟨fun k hk => hk, fun hi => hi⟩
  | cons op rest ih =>
    intro mname st st' h
    unfold engScanOps at h
    cases op with
    | store g =>
      obtain ⟨hm, hi⟩ := ih mname _ st' h
      constructor
      · intro k hk
        apply hm
        rw [lookupKey_updateGlobal_isSome]
        exact hk
      · intro hinv
        apply hi
        exact ⟨hinv.1, fun n hn => by
          rw [lookupKey_updateGlobal_isSome]
          exact hinv.2 n hn⟩
    | imp nm fl lv =>
      dsimp only at h
      cases hr : engResolve env fuel mname nm st with
      | none =>
        rw [hr] at h
        cases h
      | some st1 =>
        rw [hr] at h
        obtain ⟨hm1, hi1⟩ := hres mname nm st st1 hr
        obtain ⟨hm2, hi2⟩ := ih mname st1 st' h
        exact ⟨fun k hk => hm2 k (hm1 k hk), fun hinv => hi2 (hi1 hinv)⟩

theorem engResolve_pres (env : List (String × PyCode)) :
    ∀ (fuel : Nat) (importer name : String) (st st' : EngState),
      engResolve env fuel importer name st = some st' →
      engMono st st' ∧ (engInv st → engInv st') := by
  intro fuel
  induction fuel with
  | zero =>
    intro importer name st st' h
    simp only [engResolve] at h
    cases hm : lookupKey st.modules name with
    | some m =>
      rw [hm] at h
      injection h with h
      subst h
      exact ⟨fun k hk => hk, fun hi => hi⟩
    | none =>
      rw [hm] at h
      simp at h
  | succ f ihf =>
    intro importer name st st' h
    simp only [engResolve] at h
    cases hm : lookupKey st.modules name with
    | some m =>
      rw [hm] at h
      injection h with h
      subst h
      exact ⟨fun k hk => hk, fun hi => hi⟩
    | none =>
      rw [hm] at h
      dsimp only at h
      cases he : lookupKey env name with
      | none =>
        rw [he] at h
        injection h with h
        subst h
        exact ⟨fun k hk => hk, fun hi => hi⟩
      | some code =>
        rw [he] at h
        obtain ⟨hm2, hi2⟩ :=
          engScan_pres_of_resolve env f ihf code.ops name (engRegister name code st) st' h
        constructor
        · intro k hk
          exact hm2 k (lookupKey_cons_isSome _ _ _ _ hk)
        · intro hinv
          exact hi2 (engRegister_inv name code st hm hinv)

/-- C6: (i) when the Registry misses and the Finder produces code, resolution
registers the fresh record and only then scans the module's code — the record
is present under the module's qualified name from the moment its analysis
starts; (ii) the Registry invariant — every analysis-started module is
registered and none is analyzed twice — is preserved by any successful
resolution; (iii) a two-module import cycle `a ↔ b` terminates, both modules
end resolved in the Registry with their bound names populated, and the
analysis trace is exactly `[a, b]` — neither module is re-analyzed. -/
theorem c6_cycle_registration_invariant :
    (∀ (env : List (String × PyCode)) (fuel : Nat) (importer name : String)
        (st : EngState) (code : PyCode),
      lookupKey st.modules name = none → lookupKey env name = some code →
      engResolve env (fuel + 1) importer name st =
        engScanOps env fuel name code.ops (engRegister name code st) ∧
      (lookupKey (engRegister name code st).modules name).isSome = true) ∧
    (∀ (env : List (String × PyCode)) (fuel : Nat) (importer name : String)
        (st st' : EngState), engInv st →
      engResolve env fuel importer name st = some st' → engInv st') ∧
    (∀ (a b sa sb fa fb : String), a ≠ b →
      engResolve
        [(a, PyCode.mk fa [OpInfo.store sa, OpInfo.imp b none 0] []),
         (b, PyCode.mk fb [OpInfo.store sb, OpInfo.imp a none 0] [])]
        2 "-" a (EngState.mk [] [] []) =
      some (EngState.mk
        [(b, MFMod.mk b false []
            (some (PyCode.mk fb [OpInfo.store sb, OpInfo.imp a none 0] [])) [sb] []),
         (a, MFMod.mk a false []
            (some (PyCode.mk fa [OpInfo.store sa, OpInfo.imp b none 0] [])) [sa] [])]
        [] [a, b])) := by
  refine ⟨?_, ?_, ?_⟩
  · intro env fuel importer name st code hmiss hfound
    constructor
    · simp only [engResolve]
      rw [hmiss]
      dsimp only
      rw [hfound]
    · simp [engRegister, lookupKey]
  · intro env fuel importer name st st' hinv h
    exact ((engResolve_pres env fuel importer name st st' h).2) hinv
  · intro a b sa sb fa fb hab
    have hba : ¬(b = a) := fun hh => hab hh.symm
    simp [engResolve, engScanOps, engRegister, updateGlobal, lookupKey, sInsert,
      hab, hba, PyCode.ops]

/-- Witness for C6: the cycle `a ↔ b` with bound names `x` and `y`; both end
resolved with their bound names, analyzed once each. -/
theorem c6_cycle_registration_invariant_witness :
    engResolve
      [("a", PyCode.mk "a.py" [OpInfo.store "x", OpInfo.imp "b" none 0] []),
       ("b", PyCode.mk "b.py" [OpInfo.store "y", OpInfo.imp "a" none 0] [])]
      2 "-" "a" (EngState.mk [] [] []) =
    some (EngState.mk
      [("b", MFMod.mk "b" false []
          (some (PyCode.mk "b.py" [OpInfo.store "y", OpInfo.imp "a" none 0] [])) ["y"] []),
       ("a", MFMod.mk "a" false []
          (some (PyCode.mk "a.py" [OpInfo.store "x", OpInfo.imp "b" none 0] [])) ["x"] [])]
      [] ["a", "b"]) :=
  c6_cycle_registration_invariant.2.2 "a" "b" "x" "y" "a.py" "b.py" (by decide)

end MFind
